import Mathlib

set_option maxHeartbeats 1000000

/-!
Verification of the `Manybody` bond-order potential calculator
(`matscipy/calculators/manybody/calculator.py`) against its specification.

The Python source is embedded shallowly over exact rationals (ℚ): numpy
arrays computed by the calculator become Lean functions of the array index,
input arrays (neighbour and triplet lists) become Lean lists, and numpy's
`bincount`/`mabincount` scatter-add becomes the recursive `scatterAdd`
below.  The external topology provider (`neighbour_list`, `triplet_list`,
`first_neighbours`, `find_indices_of_reversed_pairs`, the cell volume) and
the numerical square-root primitive `np.sqrt` are inputs of the embedding,
exactly as they are external collaborators of the source file.
-/

namespace Manybody

/-- A Cartesian 3-vector of exact rationals (one row of an `(n, 3)` numpy
array). -/
abbrev Vec3 := Fin 3 → ℚ

/-- A dense 3×3 block of exact rationals (one block of an `(n, 3, 3)` numpy
array). -/
abbrev Mat3 := Matrix (Fin 3) (Fin 3) ℚ

/-- Euclidean dot product of two 3-vectors (`np.sum(a * b, axis=1)` for one
row). -/
def dot (a b : Vec3) : ℚ := a 0 * b 0 + a 1 * b 1 + a 2 * b 2

/-- Modelled from the spec: the output of the external topology provider
(§4.1) — the full neighbour pair list `(i_p, j_p, r_p, r_pc)` produced by
`neighbour_list`, the triplet list `(ij_t, ik_t)` produced by
`triplet_list`, the atomic numbers, the atom count, and the cell volume.
These are consumed, never built, by the calculator under verification. -/
structure Topo where
  nb_atoms : Nat
  numbers : List Nat
  i_p : List Nat
  j_p : List Nat
  r_p : List ℚ
  r_pc : List Vec3
  ij_t : List Nat
  ik_t : List Nat
  volume : ℚ

/-- Number of pairs (`nb_pairs = len(i_p)`). -/
def nbPairs (T : Topo) : Nat := T.i_p.length

/-- Number of triplets (`len(ij_t)`). -/
def nbTriplets (T : Topo) : Nat := T.ij_t.length

/-- Well-formedness contract of the external topology provider: the pair
arrays are parallel, the triplet arrays are parallel, atom indices are in
range, and triplet entries index into the pair list. -/
def Topo.WF (T : Topo) : Prop :=
  T.j_p.length = T.i_p.length ∧
  T.ik_t.length = T.ij_t.length ∧
  (∀ a ∈ T.i_p, a < T.nb_atoms) ∧
  (∀ a ∈ T.j_p, a < T.nb_atoms) ∧
  (∀ t ∈ T.ij_t, t < T.i_p.length) ∧
  (∀ t ∈ T.ik_t, t < T.i_p.length)

instance (T : Topo) : Decidable T.WF := by
  unfold Topo.WF
  infer_instance

/-- The 19 constructor arguments of `Manybody.__init__`: species-type maps,
the φ family (6 functions of `(R, r, ξ, ti, tij)`), the θ family
(10 functions of `(Rij, rij, Rik, rik, Rjk, rjk, ti, tij, tik)`), and the
cutoff.  All of them are pure functions supplied by the caller. -/
structure Potential where
  atom_type : Nat → Nat
  pair_type : Nat → Nat → Nat
  phi : ℚ → ℚ → ℚ → Nat → Nat → ℚ
  d1phi : ℚ → ℚ → ℚ → Nat → Nat → ℚ
  d2phi : ℚ → ℚ → ℚ → Nat → Nat → ℚ
  d11phi : ℚ → ℚ → ℚ → Nat → Nat → ℚ
  d12phi : ℚ → ℚ → ℚ → Nat → Nat → ℚ
  d22phi : ℚ → ℚ → ℚ → Nat → Nat → ℚ
  theta : ℚ → ℚ → ℚ → ℚ → ℚ → ℚ → Nat → Nat → Nat → ℚ
  d1theta : ℚ → ℚ → ℚ → ℚ → ℚ → ℚ → Nat → Nat → Nat → ℚ
  d2theta : ℚ → ℚ → ℚ → ℚ → ℚ → ℚ → Nat → Nat → Nat → ℚ
  d3theta : ℚ → ℚ → ℚ → ℚ → ℚ → ℚ → Nat → Nat → Nat → ℚ
  d11theta : ℚ → ℚ → ℚ → ℚ → ℚ → ℚ → Nat → Nat → Nat → ℚ
  d12theta : ℚ → ℚ → ℚ → ℚ → ℚ → ℚ → Nat → Nat → Nat → ℚ
  d13theta : ℚ → ℚ → ℚ → ℚ → ℚ → ℚ → Nat → Nat → Nat → ℚ
  d22theta : ℚ → ℚ → ℚ → ℚ → ℚ → ℚ → Nat → Nat → Nat → ℚ
  d23theta : ℚ → ℚ → ℚ → ℚ → ℚ → ℚ → Nat → Nat → Nat → ℚ
  d33theta : ℚ → ℚ → ℚ → ℚ → ℚ → ℚ → Nat → Nat → Nat → ℚ
  cutoff : ℚ

/-- Kernel of the `np.bincount`/`mabincount` scatter-add: walk the key list
keeping the running position `pos`, adding the weight of every position
whose key equals `k`. -/
def scatterAux {α κ : Type} [AddCommMonoid α] [DecidableEq κ]
    (w : Nat → α) : List κ → Nat → κ → α
  | [], _, _ => 0
  | key :: ks, pos, k => (if key = k then w pos else 0) + scatterAux w ks (pos + 1) k

/-- `np.bincount(keys, weights=w, minlength=n)` / `mabincount`, as the
function sending a key `k` to the sum of the weights of all positions
holding key `k`. -/
def scatterAdd {α κ : Type} [AddCommMonoid α] [DecidableEq κ]
    (keys : List κ) (w : Nat → α) (k : κ) : α :=
  scatterAux w keys 0 k

/-- The numpy fancy-indexing gather `l[idx]` for index arrays. -/
def gatherN (l : List Nat) (idx : List Nat) : List Nat :=
  idx.map (fun t => l.getD t 0)

/-! ### The scalar-field pipeline of `calculate` (source lines 122–158)

Computed numpy arrays become functions of the array index.  The same
definitions embed the identical lines 251–282 of `get_hessian` and 466–509
of `get_born_elastic_constants`, which recompute the same quantities from
their own topology input. -/

/-- `t_n = self.atom_type(atoms.numbers)`. -/
def t_n (pot : Potential) (T : Topo) (n : Nat) : Nat :=
  pot.atom_type (T.numbers.getD n 0)

/-- Atom `i` of pair `p` (entry of `i_p`). -/
def iAt (T : Topo) (p : Nat) : Nat := T.i_p.getD p 0

/-- Atom `j` of pair `p` (entry of `j_p`). -/
def jAt (T : Topo) (p : Nat) : Nat := T.j_p.getD p 0

/-- Pair distance `r_p`. -/
def rAt (T : Topo) (p : Nat) : ℚ := T.r_p.getD p 0

/-- Pair displacement vector `r_pc`. -/
def rvAt (T : Topo) (p : Nat) : Vec3 := T.r_pc.getD p 0

/-- `R_p = r_p * r_p`. -/
def RAt (T : Topo) (p : Nat) : ℚ := rAt T p * rAt T p

/-- `ij_t` entry of triplet `t`: the pair index of the triplet's ij side. -/
def ijT (T : Topo) (t : Nat) : Nat := T.ij_t.getD t 0

/-- `ik_t` entry of triplet `t`: the pair index of the triplet's ik side. -/
def ikT (T : Topo) (t : Nat) : Nat := T.ik_t.getD t 0

/-- `rij_t = r_p[ij_t]`. -/
def rij_t (T : Topo) (t : Nat) : ℚ := rAt T (ijT T t)

/-- `Rij_t = rij_t * rij_t`. -/
def Rij_t (T : Topo) (t : Nat) : ℚ := rij_t T t * rij_t T t

/-- `rik_t = r_p[ik_t]`. -/
def rik_t (T : Topo) (t : Nat) : ℚ := rAt T (ikT T t)

/-- `Rik_t = rik_t * rik_t`. -/
def Rik_t (T : Topo) (t : Nat) : ℚ := rik_t T t * rik_t T t

/-- The jk bond vector `r_pc[ik_t] - r_pc[ij_t]`. -/
def rjkv_t (T : Topo) (t : Nat) : Vec3 := rvAt T (ikT T t) - rvAt T (ijT T t)

/-- `Rjk_t = np.sum((r_pc[ik_t] - r_pc[ij_t]) ** 2, axis=1)`. -/
def Rjk_t (T : Topo) (t : Nat) : ℚ := dot (rjkv_t T t) (rjkv_t T t)

/-- `rjk_t = np.sqrt(Rjk_t)`; `sq` is the external numerical square-root
primitive `np.sqrt`, supplied as a parameter of the embedding. -/
def rjk_t (sq : ℚ → ℚ) (T : Topo) (t : Nat) : ℚ := sq (Rjk_t T t)

/-- `ti_p = t_n[i_p]`. -/
def ti_p (pot : Potential) (T : Topo) (p : Nat) : Nat := t_n pot T (iAt T p)

/-- `tij_p = self.pair_type(ti_p, t_n[j_p])`. -/
def tij_p (pot : Potential) (T : Topo) (p : Nat) : Nat :=
  pot.pair_type (ti_p pot T p) (t_n pot T (jAt T p))

/-- `ti_t = t_n[i_p[ij_t]]`. -/
def ti_t (pot : Potential) (T : Topo) (t : Nat) : Nat := t_n pot T (iAt T (ijT T t))

/-- `tij_t = self.pair_type(ti_t, t_n[j_p[ij_t]])`. -/
def tij_t (pot : Potential) (T : Topo) (t : Nat) : Nat :=
  pot.pair_type (ti_t pot T t) (t_n pot T (jAt T (ijT T t)))

/-- `tik_t = self.pair_type(ti_t, t_n[j_p[ik_t]])`. -/
def tik_t (pot : Potential) (T : Topo) (t : Nat) : Nat :=
  pot.pair_type (ti_t pot T t) (t_n pot T (jAt T (ikT T t)))

/-- Vectorized evaluation of a θ-family function on triplet `t` with the
argument tuple used on source lines 146–149. -/
def tripEval (sq : ℚ → ℚ) (pot : Potential) (T : Topo)
    (f : ℚ → ℚ → ℚ → ℚ → ℚ → ℚ → Nat → Nat → Nat → ℚ) (t : Nat) : ℚ :=
  f (Rij_t T t) (rij_t T t) (Rik_t T t) (rik_t T t) (Rjk_t T t) (rjk_t sq T t)
    (ti_t pot T t) (tij_t pot T t) (tik_t pot T t)

/-- `theta_t = self.theta(Rij_t, rij_t, Rik_t, rik_t, Rjk_t, rjk_t, ...)`. -/
def theta_t (sq : ℚ → ℚ) (pot : Potential) (T : Topo) (t : Nat) : ℚ :=
  tripEval sq pot T pot.theta t

/-- `d1theta_t`. -/
def d1theta_t (sq : ℚ → ℚ) (pot : Potential) (T : Topo) (t : Nat) : ℚ :=
  tripEval sq pot T pot.d1theta t

/-- `d2theta_t`. -/
def d2theta_t (sq : ℚ → ℚ) (pot : Potential) (T : Topo) (t : Nat) : ℚ :=
  tripEval sq pot T pot.d2theta t

/-- `d3theta_t`. -/
def d3theta_t (sq : ℚ → ℚ) (pot : Potential) (T : Topo) (t : Nat) : ℚ :=
  tripEval sq pot T pot.d3theta t

/-- `xi_p = np.bincount(ij_t, weights=theta_t, minlength=nb_pairs)`:
the coordination scalar of each pair, scatter-added over all triplets
keyed by the pair index of the triplet's ij side. -/
def xi_p (sq : ℚ → ℚ) (pot : Potential) (T : Topo) (p : Nat) : ℚ :=
  scatterAdd T.ij_t (theta_t sq pot T) p

/-- Vectorized evaluation of a φ-family function on pair `p` with the
argument tuple `(R_p, r_p, xi_p, ti_p, tij_p)` of source lines 153–155. -/
def pairEval (sq : ℚ → ℚ) (pot : Potential) (T : Topo)
    (f : ℚ → ℚ → ℚ → Nat → Nat → ℚ) (p : Nat) : ℚ :=
  f (RAt T p) (rAt T p) (xi_p sq pot T p) (ti_p pot T p) (tij_p pot T p)

/-- `phi_p = self.phi(R_p, r_p, xi_p, ti_p, tij_p)`. -/
def phi_p (sq : ℚ → ℚ) (pot : Potential) (T : Topo) (p : Nat) : ℚ :=
  pairEval sq pot T pot.phi p

/-- `d1phi_p`. -/
def d1phi_p (sq : ℚ → ℚ) (pot : Potential) (T : Topo) (p : Nat) : ℚ :=
  pairEval sq pot T pot.d1phi p

/-- `d2phi_p`. -/
def d2phi_p (sq : ℚ → ℚ) (pot : Potential) (T : Topo) (p : Nat) : ℚ :=
  pairEval sq pot T pot.d2phi p

/-- `d11phi_p` (evaluated on the Hessian and Born elastic-constant paths). -/
def d11phi_p (sq : ℚ → ℚ) (pot : Potential) (T : Topo) (p : Nat) : ℚ :=
  pairEval sq pot T pot.d11phi p

/-- `d12phi_p` (evaluated on the Hessian and Born elastic-constant paths). -/
def d12phi_p (sq : ℚ → ℚ) (pot : Potential) (T : Topo) (p : Nat) : ℚ :=
  pairEval sq pot T pot.d12phi p

/-- `d22phi_p` (evaluated on the Hessian and Born elastic-constant paths). -/
def d22phi_p (sq : ℚ → ℚ) (pot : Potential) (T : Topo) (p : Nat) : ℚ :=
  pairEval sq pot T pot.d22phi p

/-! ### Energy, forces and virial of `calculate` (source lines 158–199) -/

/-- `epot = 0.5 * np.sum(phi_p)`. -/
def epot (sq : ℚ → ℚ) (pot : Potential) (T : Topo) : ℚ :=
  (1 / 2) * ∑ p ∈ Finset.range (nbPairs T), phi_p sq pot T p

/-- `fij_pc = (d1phi_p * r_pc.T).T`: the per-pair force contribution. -/
def fij_pc (sq : ℚ → ℚ) (pot : Potential) (T : Topo) (p : Nat) : Vec3 :=
  d1phi_p sq pot T p • rvAt T p

/-- `fij_tc = (d2phi_p[ij_t] * d1theta_t * r_pc[ij_t].T).T`. -/
def fij_tc (sq : ℚ → ℚ) (pot : Potential) (T : Topo) (t : Nat) : Vec3 :=
  (d2phi_p sq pot T (ijT T t) * d1theta_t sq pot T t) • rvAt T (ijT T t)

/-- `fik_tc = (d2phi_p[ij_t] * d2theta_t * r_pc[ik_t].T).T`. -/
def fik_tc (sq : ℚ → ℚ) (pot : Potential) (T : Topo) (t : Nat) : Vec3 :=
  (d2phi_p sq pot T (ijT T t) * d2theta_t sq pot T t) • rvAt T (ikT T t)

/-- `fjk_tc = (d2phi_p[ij_t] * d3theta_t * (r_pc[ik_t] - r_pc[ij_t]).T).T`. -/
def fjk_tc (sq : ℚ → ℚ) (pot : Potential) (T : Topo) (t : Nat) : Vec3 :=
  (d2phi_p sq pot T (ijT T t) * d3theta_t sq pot T t) • rjkv_t T t

/-- The atomic-force assembly of source lines 169–174: every pair and
triplet contribution is scatter-added (`mabincount`) to its owner atom
with sign `+1` and to its partner atom with sign `-1`. -/
def f_nc (sq : ℚ → ℚ) (pot : Potential) (T : Topo) (a : Nat) : Vec3 :=
  scatterAdd T.i_p (fij_pc sq pot T) a - scatterAdd T.j_p (fij_pc sq pot T) a
  + scatterAdd (gatherN T.i_p T.ij_t) (fij_tc sq pot T) a
  - scatterAdd (gatherN T.j_p T.ij_t) (fij_tc sq pot T) a
  + scatterAdd (gatherN T.i_p T.ik_t) (fik_tc sq pot T) a
  - scatterAdd (gatherN T.j_p T.ik_t) (fik_tc sq pot T) a
  + scatterAdd (gatherN T.j_p T.ij_t) (fjk_tc sq pot T) a
  - scatterAdd (gatherN T.j_p T.ik_t) (fjk_tc sq pot T) a

/-- The six accumulated virial components of source lines 177–194, in the
source's slot order.  Slots 0–2 are the diagonal `xx, yy, zz`; slot 3 sums
`Δr_y · f_z`, slot 4 sums `Δr_x · f_z`, slot 5 sums `Δr_x · f_y`, each with
its pair part and its three-bond triplet part. -/
def virial_v (sq : ℚ → ℚ) (pot : Potential) (T : Topo) (v : Fin 6) : ℚ :=
  (∑ p ∈ Finset.range (nbPairs T),
    (match v with
      | 0 => rvAt T p 0 * fij_pc sq pot T p 0
      | 1 => rvAt T p 1 * fij_pc sq pot T p 1
      | 2 => rvAt T p 2 * fij_pc sq pot T p 2
      | 3 => rvAt T p 1 * fij_pc sq pot T p 2
      | 4 => rvAt T p 0 * fij_pc sq pot T p 2
      | 5 => rvAt T p 0 * fij_pc sq pot T p 1))
  + (∑ t ∈ Finset.range (nbTriplets T),
    (match v with
      | 0 => rvAt T (ijT T t) 0 * fij_tc sq pot T t 0
             + rvAt T (ikT T t) 0 * fik_tc sq pot T t 0
             + (rvAt T (ikT T t) 0 - rvAt T (ijT T t) 0) * fjk_tc sq pot T t 0
      | 1 => rvAt T (ijT T t) 1 * fij_tc sq pot T t 1
             + rvAt T (ikT T t) 1 * fik_tc sq pot T t 1
             + (rvAt T (ikT T t) 1 - rvAt T (ijT T t) 1) * fjk_tc sq pot T t 1
      | 2 => rvAt T (ijT T t) 2 * fij_tc sq pot T t 2
             + rvAt T (ikT T t) 2 * fik_tc sq pot T t 2
             + (rvAt T (ikT T t) 2 - rvAt T (ijT T t) 2) * fjk_tc sq pot T t 2
      | 3 => rvAt T (ijT T t) 1 * fij_tc sq pot T t 2
             + rvAt T (ikT T t) 1 * fik_tc sq pot T t 2
             + (rvAt T (ikT T t) 1 - rvAt T (ijT T t) 1) * fjk_tc sq pot T t 2
      | 4 => rvAt T (ijT T t) 0 * fij_tc sq pot T t 2
             + rvAt T (ikT T t) 0 * fik_tc sq pot T t 2
             + (rvAt T (ikT T t) 0 - rvAt T (ijT T t) 0) * fjk_tc sq pot T t 2
      | 5 => rvAt T (ijT T t) 0 * fij_tc sq pot T t 1
             + rvAt T (ikT T t) 0 * fik_tc sq pot T t 1
             + (rvAt T (ikT T t) 0 - rvAt T (ijT T t) 0) * fjk_tc sq pot T t 1))

/-- The observables stored into `self.results` by `calculate`. -/
structure CalcResults where
  free_energy : ℚ
  energy : ℚ
  stress : Fin 6 → ℚ
  forces : Nat → Vec3

/-- `calculate` (source lines 114–199): recompute every observable from the
configuration snapshot and the supplied potential functions. -/
def calculate (sq : ℚ → ℚ) (pot : Potential) (T : Topo) : CalcResults :=
  ⟨epot sq pot T, epot sq pot T,
   fun v => virial_v sq pot T v / T.volume,
   f_nc sq pot T⟩

/-- The mutable state of a `Manybody` calculator instance: the immutable
constructor parameters plus the `self.results` cache that `calculate`
overwrites. -/
structure ManybodyState where
  pot : Potential
  results : Option CalcResults

/-- One invocation of `calculate` on an instance: the results slot is
replaced wholesale by freshly computed observables. -/
def runCalculate (sq : ℚ → ℚ) (M : ManybodyState) (T : Topo) : ManybodyState :=
  ⟨M.pot, some (calculate sq M.pot T)⟩

/-! ### Lemmas about the scatter-add reduction -/

theorem sum_scatterAux {α : Type} [AddCommMonoid α] (w : Nat → α) (keys : List Nat) :
    ∀ (pos n : Nat), (∀ key ∈ keys, key < n) →
      ∑ a ∈ Finset.range n, scatterAux w keys pos a
        = ∑ t ∈ Finset.range keys.length, w (pos + t) := by
  induction keys with
  | nil => intro pos n _; simp [scatterAux]
  | cons key ks ih =>
    intro pos n hk
    have hkey : key < n := hk key (List.mem_cons_self key ks)
    have hks : ∀ k ∈ ks, k < n := fun k hm => hk k (List.mem_cons_of_mem _ hm)
    calc
      ∑ a ∈ Finset.range n, scatterAux w (key :: ks) pos a
          = (∑ a ∈ Finset.range n, if key = a then w pos else 0)
            + ∑ a ∈ Finset.range n, scatterAux w ks (pos + 1) a := by
            simp [scatterAux, Finset.sum_add_distrib]
      _ = w pos + ∑ t ∈ Finset.range ks.length, w (pos + 1 + t) := by
            rw [Finset.sum_ite_eq, ih (pos + 1) n hks]
            simp [Finset.mem_range.mpr hkey]
      _ = ∑ t ∈ Finset.range (ks.length + 1), w (pos + t) := by
            rw [Finset.sum_range_succ']
            have hc : ∀ t, pos + 1 + t = pos + (t + 1) := by omega
            simp only [hc, Nat.add_zero]
            exact add_comm _ _


/-- Summing a scatter-add over all keys below `n` recovers the plain sum of
the weights, when every key is below `n`. -/
theorem sum_scatterAdd {α : Type} [AddCommMonoid α] (keys : List Nat) (w : Nat → α)
    (n : Nat) (hk : ∀ key ∈ keys, key < n) :
    ∑ a ∈ Finset.range n, scatterAdd keys w a = ∑ t ∈ Finset.range keys.length, w t := by
  have h := sum_scatterAux w keys 0 n hk
  simpa [scatterAdd] using h

theorem scatterAux_eq_sum {α : Type} [AddCommMonoid α] (w : Nat → α) (keys : List Nat) :
    ∀ (pos k : Nat),
      scatterAux w keys pos k
        = ∑ t ∈ Finset.range keys.length, if keys.getD t 0 = k then w (pos + t) else 0 := by
  induction keys with
  | nil => intro pos k; simp [scatterAux]
  | cons key ks ih =>
    intro pos k
    rw [List.length_cons, Finset.sum_range_succ']
    simp only [List.getD_cons_succ, List.getD_cons_zero]
    have hc : ∀ t ∈ Finset.range ks.length,
        (if ks.getD t 0 = k then w (pos + (t + 1)) else 0)
          = (if ks.getD t 0 = k then w (pos + 1 + t) else 0) := by
      intro t _
      have : pos + (t + 1) = pos + 1 + t := by omega
      rw [this]
    rw [Finset.sum_congr rfl hc, ← ih (pos + 1) k]
    simp [scatterAux, add_comm]

/-- A scatter-add equals the sum of the weights over exactly the positions
holding the key. -/
theorem scatterAdd_eq_filter_sum {α : Type} [AddCommMonoid α]
    (keys : List Nat) (w : Nat → α) (k : Nat) :
    scatterAdd keys w k
      = ∑ t ∈ (Finset.range keys.length).filter (fun t => keys.getD t 0 = k), w t := by
  rw [scatterAdd, scatterAux_eq_sum, Finset.sum_filter]
  simp

/-- A key that never occurs receives a zero scatter-add. -/
theorem scatterAux_eq_zero {α κ : Type} [AddCommMonoid α] [DecidableEq κ]
    (w : Nat → α) (keys : List κ) :
    ∀ (pos : Nat) (k : κ), k ∉ keys → scatterAux w keys pos k = 0 := by
  induction keys with
  | nil => intro pos k _; rfl
  | cons key ks ih =>
    intro pos k hk
    have h1 : ¬ key = k := fun h => hk (h ▸ List.mem_cons_self key ks)
    simp [scatterAux, h1, ih (pos + 1) k (fun hm => hk (List.mem_cons_of_mem _ hm))]

theorem gatherN_length (l idx : List Nat) : (gatherN l idx).length = idx.length :=
  List.length_map _ _

theorem gatherN_lt (l idx : List Nat) (n : Nat) (hl : ∀ a ∈ l, a < n)
    (hidx : ∀ t ∈ idx, t < l.length) : ∀ k ∈ gatherN l idx, k < n := by
  intro k hk
  rcases List.mem_map.mp hk with ⟨t, ht, rfl⟩
  have hlt := hidx t ht
  rw [List.getD_eq_getElem l 0 hlt]
  exact hl _ (List.getElem_mem hlt)

/-! ### Claim C1 -/

/-- C1: for every atomic configuration with a well-formed topology, the
atomic forces computed by `calculate` — each pairwise contribution and each
of the three per-triplet bond contributions scatter-added with `+1` on the
owner atom and `-1` on the partner atom — sum to the zero vector over all
atoms, exactly, in the exact-rational embedding. -/
theorem forces_sum_zero (sq : ℚ → ℚ) (pot : Potential) (T : Topo) (h : T.WF) :
    ∑ a ∈ Finset.range T.nb_atoms, (calculate sq pot T).forces a = (0 : Vec3) := by
  obtain ⟨hj, hik, hi_lt, hj_lt, hij_t, hik_t⟩ := h
  show ∑ a ∈ Finset.range T.nb_atoms, f_nc sq pot T a = 0
  have e1 := sum_scatterAdd T.i_p (fij_pc sq pot T) T.nb_atoms hi_lt
  have e2 := sum_scatterAdd T.j_p (fij_pc sq pot T) T.nb_atoms hj_lt
  have e3 := sum_scatterAdd (gatherN T.i_p T.ij_t) (fij_tc sq pot T) T.nb_atoms
    (gatherN_lt _ _ _ hi_lt hij_t)
  have e4 := sum_scatterAdd (gatherN T.j_p T.ij_t) (fij_tc sq pot T) T.nb_atoms
    (gatherN_lt _ _ _ hj_lt (fun t ht => by rw [hj]; exact hij_t t ht))
  have e5 := sum_scatterAdd (gatherN T.i_p T.ik_t) (fik_tc sq pot T) T.nb_atoms
    (gatherN_lt _ _ _ hi_lt hik_t)
  have e6 := sum_scatterAdd (gatherN T.j_p T.ik_t) (fik_tc sq pot T) T.nb_atoms
    (gatherN_lt _ _ _ hj_lt (fun t ht => by rw [hj]; exact hik_t t ht))
  have e7 := sum_scatterAdd (gatherN T.j_p T.ij_t) (fjk_tc sq pot T) T.nb_atoms
    (gatherN_lt _ _ _ hj_lt (fun t ht => by rw [hj]; exact hij_t t ht))
  have e8 := sum_scatterAdd (gatherN T.j_p T.ik_t) (fjk_tc sq pot T) T.nb_atoms
    (gatherN_lt _ _ _ hj_lt (fun t ht => by rw [hj]; exact hik_t t ht))
  simp only [f_nc, Finset.sum_add_distrib, Finset.sum_sub_distrib]
  rw [e1, e2, e3, e4, e5, e6, e7, e8]
  simp only [gatherN_length, hj, hik]
  abel

/-- Concrete potential used by witnesses: all sixteen functions constant. -/
def trivPot : Potential :=
  ⟨fun _ => 0, fun _ _ => 0,
   fun _ _ _ _ _ => 1, fun _ _ _ _ _ => 1, fun _ _ _ _ _ => 1,
   fun _ _ _ _ _ => 1, fun _ _ _ _ _ => 1, fun _ _ _ _ _ => 1,
   fun _ _ _ _ _ _ _ _ _ => 1, fun _ _ _ _ _ _ _ _ _ => 1,
   fun _ _ _ _ _ _ _ _ _ => 1, fun _ _ _ _ _ _ _ _ _ => 1,
   fun _ _ _ _ _ _ _ _ _ => 1, fun _ _ _ _ _ _ _ _ _ => 1,
   fun _ _ _ _ _ _ _ _ _ => 1, fun _ _ _ _ _ _ _ _ _ => 1,
   fun _ _ _ _ _ _ _ _ _ => 1, fun _ _ _ _ _ _ _ _ _ => 1,
   2⟩

/-- The spec's concrete scenario (§8): two same-species atoms at distance
`r0`, full pair list `{(0,1), (1,0)}` with opposite displacement vectors,
no triplet in range. -/
def twoAtomTopo (r0 : ℚ) (v : Vec3) (vol : ℚ) (z : Nat) : Topo :=
  ⟨2, [z, z], [0, 1], [1, 0], [r0, r0], [v, -v], [], [], vol⟩

theorem forces_sum_zero_witness :
    (twoAtomTopo 1 (![1, 0, 0]) 1 0).WF
    ∧ ∑ a ∈ Finset.range (twoAtomTopo 1 (![1, 0, 0]) 1 0).nb_atoms,
        (calculate (fun x => x) trivPot (twoAtomTopo 1 (![1, 0, 0]) 1 0)).forces a
        = (0 : Vec3) :=
  ⟨by decide, forces_sum_zero (fun x => x) trivPot _ (by decide)⟩

/-! ### Claims C3, C2 and C9 -/

/-- The coordination scalar of a pair as worded by the spec (§4.2): the sum
of θ over exactly those triplets whose ij-side pair index is the pair. -/
def xiSpec (sq : ℚ → ℚ) (pot : Potential) (T : Topo) (p : Nat) : ℚ :=
  ∑ t ∈ (Finset.range (nbTriplets T)).filter (fun t => ijT T t = p), theta_t sq pot T t

theorem xi_p_eq_xiSpec (sq : ℚ → ℚ) (pot : Potential) (T : Topo) (p : Nat) :
    xi_p sq pot T p = xiSpec sq pot T p := by
  rw [xi_p, xiSpec, scatterAdd_eq_filter_sum]
  rfl

/-- C3: in every evaluation path the coordination scalar `xi_p` of a pair
`p` equals the sum of θ over exactly the triplets whose ij-side pair index
is `p`; a pair with no incident triplet gets `ξ = 0`; and each of the six
φ-family evaluations (`phi`, `d1phi`, `d2phi` in `calculate`; `d2phi`,
`d11phi`, `d12phi`, `d22phi` in `get_hessian` and
`get_born_elastic_constants`, embedded by the same definitions) receives
the completely summed `xi_p` of its pair. -/
theorem xi_accumulation (sq : ℚ → ℚ) (pot : Potential) (T : Topo) (p : Nat) :
    xi_p sq pot T p
      = ∑ t ∈ (Finset.range (nbTriplets T)).filter (fun t => ijT T t = p),
          theta_t sq pot T t
    ∧ (p ∉ T.ij_t → xi_p sq pot T p = 0)
    ∧ phi_p sq pot T p
        = pot.phi (RAt T p) (rAt T p) (xi_p sq pot T p) (ti_p pot T p) (tij_p pot T p)
    ∧ d1phi_p sq pot T p
        = pot.d1phi (RAt T p) (rAt T p) (xi_p sq pot T p) (ti_p pot T p) (tij_p pot T p)
    ∧ d2phi_p sq pot T p
        = pot.d2phi (RAt T p) (rAt T p) (xi_p sq pot T p) (ti_p pot T p) (tij_p pot T p)
    ∧ d11phi_p sq pot T p
        = pot.d11phi (RAt T p) (rAt T p) (xi_p sq pot T p) (ti_p pot T p) (tij_p pot T p)
    ∧ d12phi_p sq pot T p
        = pot.d12phi (RAt T p) (rAt T p) (xi_p sq pot T p) (ti_p pot T p) (tij_p pot T p)
    ∧ d22phi_p sq pot T p
        = pot.d22phi (RAt T p) (rAt T p) (xi_p sq pot T p) (ti_p pot T p) (tij_p pot T p) := by
  refine ⟨xi_p_eq_xiSpec sq pot T p, ?_, rfl, rfl, rfl, rfl, rfl, rfl⟩
  intro hp
  exact scatterAux_eq_zero (theta_t sq pot T) T.ij_t 0 p hp

theorem xi_accumulation_witness :
    (0 ∉ (twoAtomTopo 1 (![1, 0, 0]) 1 0).ij_t)
    ∧ xi_p (fun x => x) trivPot (twoAtomTopo 1 (![1, 0, 0]) 1 0) 0 = 0 :=
  ⟨by decide,
   (xi_accumulation (fun x => x) trivPot (twoAtomTopo 1 (![1, 0, 0]) 1 0) 0).2.1 (by decide)⟩

/-- C2: the potential energy returned by `calculate` is one half of the sum
of φ over the full pair list, with each φ receiving the fully summed
coordination scalar of its pair; and on the spec's two-atom scenario —
same species, distance `r0` below the cutoff, no triplet — the energy
reduces to a single `φ(r0², r0, ξ=0)`. -/
theorem energy_half_sum_phi (sq : ℚ → ℚ) (pot : Potential) (T : Topo) :
    ((calculate sq pot T).energy
      = (1 / 2) * ∑ p ∈ Finset.range (nbPairs T),
          pot.phi (RAt T p) (rAt T p) (xiSpec sq pot T p) (ti_p pot T p) (tij_p pot T p))
    ∧ ∀ (r0 vol : ℚ) (v : Vec3) (z : Nat), r0 < pot.cutoff →
        (calculate sq pot (twoAtomTopo r0 v vol z)).energy
          = pot.phi (r0 * r0) r0 0 (pot.atom_type z)
              (pot.pair_type (pot.atom_type z) (pot.atom_type z)) := by
  constructor
  · show epot sq pot T = _
    rw [epot]
    refine congrArg _ (Finset.sum_congr rfl fun p _ => ?_)
    rw [phi_p, pairEval, xi_p_eq_xiSpec]
  · intro r0 vol v z _
    show epot sq pot (twoAtomTopo r0 v vol z) = _
    have h2 : nbPairs (twoAtomTopo r0 v vol z) = 2 := rfl
    rw [epot, h2, Finset.sum_range_succ, Finset.sum_range_succ, Finset.sum_range_zero]
    simp only [phi_p, pairEval, xi_p, scatterAdd, scatterAux, RAt, rAt, ti_p, tij_p,
      t_n, iAt, jAt, twoAtomTopo, List.getD_cons_zero, List.getD_cons_succ]
    ring

theorem energy_half_sum_phi_witness :
    ((1 : ℚ) < trivPot.cutoff)
    ∧ (calculate (fun x => x) trivPot (twoAtomTopo 1 (![1, 0, 0]) 1 0)).energy
        = trivPot.phi (1 * 1) 1 0 (trivPot.atom_type 0)
            (trivPot.pair_type (trivPot.atom_type 0) (trivPot.atom_type 0)) :=
  ⟨by decide,
   (energy_half_sum_phi (fun x => x) trivPot (twoAtomTopo 1 (![1, 0, 0]) 1 0)).2
     1 1 (![1, 0, 0]) 0 (by decide)⟩

/-- C9: two-run determinism of `calculate` — re-invoking the evaluator on an
unchanged configuration with the same pure potential functions yields
identical observables, and the stored results are recomputed from scratch:
they do not depend on any previously stored results. -/
theorem calculate_deterministic (sq : ℚ → ℚ) (M : ManybodyState) (T : Topo) :
    (runCalculate sq (runCalculate sq M T) T).results = (runCalculate sq M T).results
    ∧ ∀ prior : Option CalcResults,
        (runCalculate sq ⟨M.pot, prior⟩ T).results = some (calculate sq M.pot T) :=
  ⟨rfl, fun _ => rfl⟩

/-! ### Claim C4 -/

/-- The spec-side virial tensor (§4.3): the sum over pairs of the outer
product of the pair displacement vector with the pairwise force
contribution, plus the outer-product sums over the three triplet bond
vectors (ij, ik, jk) with their triplet force contributions. -/
def virialTensor (sq : ℚ → ℚ) (pot : Potential) (T : Topo) : Fin 3 → Fin 3 → ℚ :=
  (∑ p ∈ Finset.range (nbPairs T), fun a b => rvAt T p a * fij_pc sq pot T p b)
  + ∑ t ∈ Finset.range (nbTriplets T), fun a b =>
      rvAt T (ijT T t) a * fij_tc sq pot T t b
      + rvAt T (ikT T t) a * fik_tc sq pot T t b
      + rjkv_t T t a * fjk_tc sq pot T t b

/-- The spec-side stress: the virial tensor reduced to the six Voigt
components in the order (xx, yy, zz, yz, xz, xy) and divided by the cell
volume. -/
def specStress (sq : ℚ → ℚ) (pot : Potential) (T : Topo) : Fin 6 → ℚ := fun s =>
  (match s with
   | 0 => virialTensor sq pot T 0 0
   | 1 => virialTensor sq pot T 1 1
   | 2 => virialTensor sq pot T 2 2
   | 3 => virialTensor sq pot T 1 2
   | 4 => virialTensor sq pot T 0 2
   | 5 => virialTensor sq pot T 0 1) / T.volume

/-- C4: the stress returned by `calculate` is the virial — pair and triplet
bond outer products with the corresponding force contributions — reduced to
Voigt order (xx, yy, zz, yz, xz, xy) and divided by the cell volume; in
particular slot 4 holds `Σ Δr_y·f_z`, slot 5 holds `Σ Δr_x·f_z` and slot 6
holds `Σ Δr_x·f_y` (1-based slots). -/
theorem stress_virial_voigt (sq : ℚ → ℚ) (pot : Potential) (T : Topo) :
    (calculate sq pot T).stress = specStress sq pot T := by
  have hentry : ∀ a b : Fin 3, virialTensor sq pot T a b
      = (∑ p ∈ Finset.range (nbPairs T), rvAt T p a * fij_pc sq pot T p b)
        + ∑ t ∈ Finset.range (nbTriplets T),
            (rvAt T (ijT T t) a * fij_tc sq pot T t b
             + rvAt T (ikT T t) a * fik_tc sq pot T t b
             + rjkv_t T t a * fjk_tc sq pot T t b) := by
    intro a b
    simp [virialTensor, Finset.sum_apply]
  funext s
  show virial_v sq pot T s / T.volume = specStress sq pot T s
  fin_cases s <;>
    simp only [specStress, virial_v, hentry, rjkv_t, Pi.sub_apply]

/-! ### Claim C8 -/

/-- The symmetrization over all four index-pair swaps of source line 641:
`(C + C.swapaxes(0,1) + C.swapaxes(2,3) + C.swapaxes(0,1).swapaxes(2,3)) / 4`. -/
def symmetrizeC (C : Fin 3 → Fin 3 → Fin 3 → Fin 3 → ℚ) (a b c d : Fin 3) : ℚ :=
  (C a b c d + C b a c d + C a b d c + C b a d c) / 4

/-- `return -C_abab / atoms.get_volume()` (source line 643), applied to the
raw rank-4 tensor produced by either the eigendecomposition path or the
conjugate-gradient path of
`get_non_affine_contribution_to_elastic_constants`. -/
def nonAffineTensor (C : Fin 3 → Fin 3 → Fin 3 → Fin 3 → ℚ) (vol : ℚ)
    (a b c d : Fin 3) : ℚ :=
  -(symmetrizeC C a b c d) / vol

/-- C8: the rank-4 tensor returned by
`get_non_affine_contribution_to_elastic_constants` — whichever path
produced the raw tensor — is symmetrized over all four index-pair swaps
before negation and division by volume, so the result is invariant under
swapping the first index pair, the second index pair, or both. -/
theorem nonaffine_symmetrized (C : Fin 3 → Fin 3 → Fin 3 → Fin 3 → ℚ) (vol : ℚ)
    (a b c d : Fin 3) :
    nonAffineTensor C vol a b c d = nonAffineTensor C vol b a c d
    ∧ nonAffineTensor C vol a b c d = nonAffineTensor C vol a b d c
    ∧ nonAffineTensor C vol a b c d = nonAffineTensor C vol b a d c := by
  refine ⟨?_, ?_, ?_⟩ <;> (simp only [nonAffineTensor, symmetrizeC]; ring)

/-! ### Claim C7 -/

/-- The `RuntimeError` message of source line 635, raised verbatim whatever
the sign of the nonzero `info`. -/
def cgMessage : String :=
  " info > 0: CG tolerance not achieved, info < 0: Exceeded number of iterations."

/-- The nine strain-index combinations visited in order by the nested loop
`for i in range(3): for j in range(3)` (source lines 630–631). -/
def cgIndexPairs : List (Nat × Nat) :=
  [(0, 0), (0, 1), (0, 2), (1, 0), (1, 1), (1, 2), (2, 0), (2, 1), (2, 2)]

/-- The conjugate-gradient solve loop of
`get_non_affine_contribution_to_elastic_constants` (source lines 630–636):
one solve per index pair in order; the first solve returning a nonzero
`info` raises `RuntimeError(cgMessage)`, abandoning the remaining solves
with no retry. -/
def cgRun {σ : Type} (solver : Nat → Nat → σ × Int) :
    List (Nat × Nat) → Except String (List (Nat × Nat × σ))
  | [] => Except.ok []
  | ij :: rest =>
    if (solver ij.1 ij.2).2 ≠ 0 then Except.error cgMessage
    else
      match cgRun solver rest with
      | Except.error e => Except.error e
      | Except.ok xs => Except.ok ((ij.1, ij.2, (solver ij.1 ij.2).1) :: xs)

/-- The conjugate-gradient path of the non-affine elastic-constant
correction, abstracted over the external `scipy` solver. -/
def nonAffineCG {σ : Type} (solver : Nat → Nat → σ × Int) :
    Except String (List (Nat × Nat × σ)) :=
  cgRun solver cgIndexPairs

/-- C7 counterexample: a solver failing with `info = 1` (tolerance not
achieved) and one failing with `info = -1` (iteration issue) produce the
very same error value — one fixed message — so the reported error does not
distinguish the two reasons, contrary to the claim. -/
theorem cg_error_not_distinguishing :
    nonAffineCG (fun _ _ => ((0 : ℚ), (1 : Int)))
      = nonAffineCG (fun _ _ => ((0 : ℚ), (-1 : Int)))
    ∧ nonAffineCG (fun _ _ => ((0 : ℚ), (1 : Int))) = Except.error cgMessage
    ∧ nonAffineCG (fun _ _ => ((0 : ℚ), (-1 : Int))) = Except.error cgMessage :=
  ⟨rfl, rfl, rfl⟩

theorem cgRun_error {σ : Type} (solver : Nat → Nat → σ × Int) :
    ∀ l : List (Nat × Nat), (∃ ij ∈ l, (solver ij.1 ij.2).2 ≠ 0) →
      cgRun solver l = Except.error cgMessage := by
  intro l
  induction l with
  | nil => rintro ⟨ij, h, _⟩; cases h
  | cons hd rest ih =>
    rintro ⟨ij, hmem, hne⟩
    by_cases ha : (solver hd.1 hd.2).2 ≠ 0
    · simp [cgRun, ha]
    · have hrest : ij ∈ rest := by
        rcases List.mem_cons.mp hmem with h1 | h1
        · exact absurd (h1 ▸ hne) ha
        · exact h1
      have herr := ih ⟨ij, hrest, hne⟩
      simp [cgRun, ha, herr]

/-- C7 (amended): if any of the nine conjugate-gradient solves reports a
nonzero `info`, the operation fails fatally with the fixed
`RuntimeError` message and is not retried; the message names both possible
reasons but is identical in either case, so the reason which occurred is
not distinguished. -/
theorem cg_failure_fatal {σ : Type} (solver : Nat → Nat → σ × Int)
    (h : ∃ ij ∈ cgIndexPairs, (solver ij.1 ij.2).2 ≠ 0) :
    nonAffineCG solver = Except.error cgMessage :=
  cgRun_error solver cgIndexPairs h

theorem cg_failure_fatal_witness :
    (∃ ij ∈ cgIndexPairs, ((fun _ _ => ((0 : ℚ), (1 : Int))) ij.1 ij.2).2 ≠ (0 : Int))
    ∧ nonAffineCG (fun _ _ => ((0 : ℚ), (1 : Int))) = Except.error cgMessage :=
  ⟨⟨(0, 0), by decide, by decide⟩,
   cg_failure_fatal (fun _ _ => ((0 : ℚ), (1 : Int))) ⟨(0, 0), by decide, by decide⟩⟩

/-! ### Claim C10 -/

/-- Modelled from the spec: the dynamic attributes set by the external ASE
`Calculator` base-class constructor called on source line 74. -/
def calculatorBaseAttrs : List String := ["atoms", "results"]

/-- The dynamic attributes set by `Manybody.__init__` (source lines 70–95):
the base attributes plus the species-type maps, the six φ-family and ten
θ-family functions, and the cutoff — and nothing else. -/
def manybodyInitAttrs : List String :=
  calculatorBaseAttrs ++
  ["atom_type", "pair_type",
   "phi", "d1phi", "d2phi", "d11phi", "d12phi", "d22phi",
   "theta", "d1theta", "d2theta", "d3theta", "d11theta", "d12theta", "d13theta",
   "d22theta", "d23theta", "d33theta", "cutoff"]

/-- Python dynamic attribute lookup: the first access in program order that
names an attribute absent from the instance raises `AttributeError` and the
method produces no result. -/
def pyGetattr (attrs accesses : List String) : Except String Unit :=
  match accesses.find? (fun a => !(attrs.contains a)) with
  | some a => Except.error ("AttributeError: " ++ a)
  | none => Except.ok ()

/-- The dynamic attribute accesses of `get_second_derivative` in program
order (source lines 332–378): constructor-set attributes first, then the
G family (`self.G` at line 365 onward) and the F family (line 374 onward),
none of which the constructor defines. -/
def secondDerivAccesses : List String :=
  ["atoms", "atom_type", "cutoff", "pair_type",
   "G", "d1G", "d2G", "d11G", "d12G", "d22G",
   "d1F", "d2F", "d11F", "d12F", "d22F"]

/-- The dynamic attribute accesses of `get_non_affine_forces` in program
order (source lines 645–688). -/
def nonAffineForcesAccesses : List String :=
  ["atoms", "atom_type", "cutoff", "pair_type",
   "G", "d1G", "d2G", "d11G", "d12G", "d22G",
   "d1F", "d2F", "d11F", "d12F", "d22F"]

/-- The accesses of `get_non_affine_forces_from_second_derivative` (source
lines 410–442), which delegates to `get_second_derivative`. -/
def fromSecondDerivAccesses : List String :=
  ["atoms", "cutoff"] ++ secondDerivAccesses

/-- C10: on every instance built by the constructor, calls to
`get_second_derivative`, `get_non_affine_forces` and
`get_non_affine_forces_from_second_derivative` fail with an attribute error
on `self.G` — the first of the eleven G/F-family attributes they evaluate —
before producing a result, since the constructor defines none of them. -/
theorem missing_attributes_error :
    pyGetattr manybodyInitAttrs secondDerivAccesses = Except.error "AttributeError: G"
    ∧ pyGetattr manybodyInitAttrs nonAffineForcesAccesses
        = Except.error "AttributeError: G"
    ∧ pyGetattr manybodyInitAttrs fromSecondDerivAccesses
        = Except.error "AttributeError: G"
    ∧ (["G", "d1G", "d2G", "d11G", "d12G", "d22G",
        "d1F", "d2F", "d11F", "d12F", "d22F"].all
        (fun n => !(manybodyInitAttrs.contains n))) = true :=
  ⟨rfl, rfl, rfl, rfl⟩

/-! ### Claim C5 -/

theorem sum_scatterAux_zip {α : Type} [AddCommMonoid α] (w : Nat → α) (ks1 : List Nat) :
    ∀ (ks2 : List Nat) (pos a n : Nat), ks2.length = ks1.length → (∀ k ∈ ks2, k < n) →
      ∑ b ∈ Finset.range n, scatterAux w (ks1.zip ks2) pos (a, b)
        = scatterAux w ks1 pos a := by
  induction ks1 with
  | nil =>
    intro ks2 pos a n _ _
    simp [scatterAux]
  | cons k1 t1 ih =>
    intro ks2 pos a n hlen hb
    cases ks2 with
    | nil => simp at hlen
    | cons k2 t2 =>
      have hk2 : k2 < n := hb k2 (List.mem_cons_self _ _)
      have ht2 : ∀ k ∈ t2, k < n := fun k hm => hb k (List.mem_cons_of_mem _ hm)
      have hlen2 : t2.length = t1.length := by simpa using hlen
      have hsplit : ∑ b ∈ Finset.range n, scatterAux w ((k1, k2) :: t1.zip t2) pos (a, b)
          = (∑ b ∈ Finset.range n, if (k1, k2) = (a, b) then w pos else 0)
            + ∑ b ∈ Finset.range n, scatterAux w (t1.zip t2) (pos + 1) (a, b) := by
        simp [scatterAux, Finset.sum_add_distrib]
      rw [List.zip_cons_cons, hsplit, ih t2 (pos + 1) a n hlen2 ht2]
      have hhead : (∑ b ∈ Finset.range n, if (k1, k2) = (a, b) then w pos else 0)
          = (if k1 = a then w pos else 0) := by
        by_cases h : k1 = a
        · subst h
          simp [Prod.mk.injEq, Finset.sum_ite_eq, Finset.mem_range.mpr hk2]
        · simp [Prod.mk.injEq, h]
      rw [hhead]
      simp [scatterAux]

/-- The per-pair block symmetrization of source line 287:
`H_pcc += H_pcc.transpose(0, 2, 1)[tr_p]` — each off-diagonal block gets the
transpose of its mirror pair's block, located via the reverse-pair index
`tr_p`.  `H1` is the Term-1 per-pair block array; its defining expression is
elided in the source (line 285), so it is a parameter here and every
statement below holds for all of its values. -/
def H_sym (H1 : Nat → Mat3) (tr_p : List Nat) (p : Nat) : Mat3 :=
  H1 p + (H1 (tr_p.getD p 0)).transpose

/-- The diagonal (self) blocks of source lines 291–294:
`H_acc[:, x, y] = -np.bincount(i_p, weights=H_pcc[:, x, y])` — the negative
of the scatter-added off-diagonal blocks owned by each atom. -/
def H_acc (T : Topo) (H1 : Nat → Mat3) (tr_p : List Nat) (a : Nat) : Mat3 :=
  -(scatterAdd T.i_p (H_sym H1 tr_p) a)

/-- The assembled 3×3 block of the sparse Hessian at block position
`(a, b)`: `bsr_matrix((H_pcc / 2, j_p, first_n))` places each pair's block
at block row `i_p[p]`, block column `j_p[p]`, and the second `bsr_matrix`
adds the diagonal blocks `H_acc / 2` (source lines 304–307). -/
def hessianBlock (T : Topo) (H1 : Nat → Mat3) (tr_p : List Nat) (a b : Nat) : Mat3 :=
  (1 / 2 : ℚ) • scatterAdd (T.i_p.zip T.j_p) (H_sym H1 tr_p) (a, b)
  + (if a = b then (1 / 2 : ℚ) • H_acc T H1 tr_p a else 0)

/-- C5: in `get_hessian`, the diagonal block of every atom is the negative
of the sum of the off-diagonal pair blocks owned by that atom, so every
per-atom block row of the assembled matrix sums to the zero 3×3 block
(translational invariance); and each off-diagonal block is symmetrized by
adding the transpose of its mirror pair's block located via the
reverse-pair index.  Stated for every value of the Term-1 block array,
whose defining expression is elided in the source. -/
theorem hessian_row_sum_zero (T : Topo) (H1 : Nat → Mat3) (tr_p : List Nat)
    (hWF : T.WF) (a : Nat) (ha : a < T.nb_atoms) :
    (∑ b ∈ Finset.range T.nb_atoms, hessianBlock T H1 tr_p a b) = 0
    ∧ H_acc T H1 tr_p a
        = -∑ p ∈ (Finset.range (nbPairs T)).filter (fun p => iAt T p = a),
            H_sym H1 tr_p p
    ∧ ∀ p, H_sym H1 tr_p p = H1 p + (H1 (tr_p.getD p 0)).transpose := by
  obtain ⟨hj, _, _, hj_lt, _, _⟩ := hWF
  refine ⟨?_, ?_, fun p => rfl⟩
  · have hzip : ∑ b ∈ Finset.range T.nb_atoms,
        scatterAdd (T.i_p.zip T.j_p) (H_sym H1 tr_p) (a, b)
          = scatterAdd T.i_p (H_sym H1 tr_p) a :=
      sum_scatterAux_zip (H_sym H1 tr_p) T.i_p T.j_p 0 a T.nb_atoms hj hj_lt
    simp only [hessianBlock, Finset.sum_add_distrib, ← Finset.smul_sum, hzip]
    rw [Finset.sum_ite_eq]
    simp [Finset.mem_range.mpr ha, H_acc]
  · rw [H_acc, scatterAdd_eq_filter_sum]
    rfl

theorem hessian_row_sum_zero_witness :
    ((twoAtomTopo 1 (![1, 0, 0]) 1 0).WF ∧ 0 < (twoAtomTopo 1 (![1, 0, 0]) 1 0).nb_atoms)
    ∧ (∑ b ∈ Finset.range (twoAtomTopo 1 (![1, 0, 0]) 1 0).nb_atoms,
        hessianBlock (twoAtomTopo 1 (![1, 0, 0]) 1 0) (fun _ => (1 : Mat3)) [1, 0] 0 b)
        = 0 :=
  ⟨⟨by decide, by decide⟩,
   (hessian_row_sum_zero (twoAtomTopo 1 (![1, 0, 0]) 1 0) (fun _ => (1 : Mat3)) [1, 0]
     (by decide) 0 (by decide)).1⟩

end Manybody
